import Mathlib

/-!
Verification development for the `week8/pytorch_autoencoder.ipynb` notebook.

The notebook trains a four-layer fully connected autoencoder on MNIST.
We embed the numeric core shallowly:

* tensors become Mathlib matrices over `ℝ` (the idealized semantics of the
  notebook's floating point arithmetic);
* `nn.Linear(in, out)` computes `x * Wᵀ + b` for a stored weight of shape
  `(out, in)`; we embed each layer by its mathematically equal form
  `x * W + b` with `W` the transposed, `(in, out)`-shaped matrix, matching
  the shapes `W1(784,128)`, `W2(128,128)`, `W3(128,128)`, `W4(128,784)`
  used by the specification;
* `nn.MSELoss()` is the mean of squared entrywise differences over all
  elements of the batch;
* `optim.Adam(model.parameters(), lr=1e-3)` performs the standard Adam
  update with the PyTorch defaults `beta1 = 0.9`, `beta2 = 0.999`,
  `eps = 1e-8`, realized here elementwise by `adamScalar`;
* `train_loss.backward()` is reverse-mode differentiation of the loss; we
  embed it as the explicit chain-rule gradient of the four-layer network
  (the mathematical derivative that autograd computes);
* the `DataLoader` batching is embedded by chunking an index list, and the
  shuffling by a model of torch's globally seeded generator.
-/

set_option maxRecDepth 4000

namespace AutoencoderNB

/-- Real matrices indexed by `Fin`; the shape of every tensor is carried in
its type. -/
abbrev Mat (m n : ℕ) : Type := Matrix (Fin m) (Fin n) ℝ

/-- `torch.relu`, applied elementwise: `relu(x) = max(x, 0)`. -/
def relu {m n : ℕ} (M : Mat m n) : Mat m n :=
  Matrix.of fun i j => max (M i j) 0

/-- A fully connected layer `x ↦ x * W + b` (with `W` already transposed to
shape `(in, out)`, see the module docstring), broadcasting the bias over the
batch dimension exactly as `nn.Linear` does. -/
def linear {m k n : ℕ} (W : Mat k n) (b : Fin n → ℝ) (x : Mat m k) : Mat m n :=
  x * W + Matrix.of fun _ j => b j

/-- The parameter tensors of class `AE` (cell-11) instantiated with
`input_shape=784` (cell-13): `encoder_hidden_layer` (W1, b1),
`encoder_output_layer` (W2, b2), `decoder_hidden_layer` (W3, b3),
`decoder_output_layer` (W4, b4). -/
structure Params where
  W1 : Mat 784 128
  b1 : Fin 128 → ℝ
  W2 : Mat 128 128
  b2 : Fin 128 → ℝ
  W3 : Mat 128 128
  b3 : Fin 128 → ℝ
  W4 : Mat 128 784
  b4 : Fin 784 → ℝ

namespace AE

/-- Pre-activation of `encoder_hidden_layer`. -/
def z1 {N : ℕ} (p : Params) (x : Mat N 784) : Mat N 128 := linear p.W1 p.b1 x

/-- `activation = torch.relu(activation)` after the encoder hidden layer. -/
def h1 {N : ℕ} (p : Params) (x : Mat N 784) : Mat N 128 := relu (z1 p x)

/-- Pre-activation of `encoder_output_layer`. -/
def z2 {N : ℕ} (p : Params) (x : Mat N 784) : Mat N 128 := linear p.W2 p.b2 (h1 p x)

/-- `code = torch.relu(code)`: the latent code. -/
def h2 {N : ℕ} (p : Params) (x : Mat N 784) : Mat N 128 := relu (z2 p x)

/-- Pre-activation of `decoder_hidden_layer`. -/
def z3 {N : ℕ} (p : Params) (x : Mat N 784) : Mat N 128 := linear p.W3 p.b3 (h2 p x)

/-- `activation = torch.relu(activation)` after the decoder hidden layer. -/
def h3 {N : ℕ} (p : Params) (x : Mat N 784) : Mat N 128 := relu (z3 p x)

/-- Pre-activation of `decoder_output_layer`. -/
def z4 {N : ℕ} (p : Params) (x : Mat N 784) : Mat N 784 := linear p.W4 p.b4 (h3 p x)

/-- `AE.forward` (cell-11): four linear layers with `torch.relu` after each,
including the output layer (`reconstructed = torch.relu(activation)`). -/
def forward {N : ℕ} (p : Params) (x : Mat N 784) : Mat N 784 := relu (z4 p x)

end AE

/-! ### Batch sampling

`torch.utils.data.DataLoader(dataset, batch_size=bs, shuffle=…)` with the
default `drop_last=False` iterates the dataset indices (shuffled or
sequential) in consecutive chunks of `bs`, the final chunk being the
remainder.  We embed the chunking as `chunkList`, written with an explicit
fuel argument (the list length) so that it reduces definitionally. -/

variable {α : Type*}

/-- Splits `l` into consecutive chunks of `bs` elements; `fuel` bounds the
recursion depth (any `fuel ≥ l.length` yields the full chunking when
`bs ≥ 1`). -/
def chunkAux (bs : ℕ) : ℕ → List α → List (List α)
  | 0, _ => []
  | _ + 1, [] => []
  | fuel + 1, a :: t => ((a :: t).take bs) :: chunkAux bs fuel ((a :: t).drop bs)

/-- The index batches a `DataLoader` with batch size `bs` draws from the
index sequence `l` (default `drop_last=False`). -/
def chunkList (bs : ℕ) (l : List α) : List (List α) := chunkAux bs l.length l

/-! ### Configuration surface and the loaders actually consumed -/

/-- cell-7: `batch_size = 512`, the configuration value. -/
def batch_size : ℕ := 512

/-- cell-7: `epochs = 20`. -/
def epochs : ℕ := 20

/-- cell-7 and cell-13: `learning_rate = 1e-3`, passed to
`optim.Adam(model.parameters(), lr=1e-3)`. -/
noncomputable def learning_rate : ℝ := 1/1000

/-- cell-15 re-creates `train_loader` with a hard-coded `batch_size=128`
(shadowing the loader built from the `batch_size` configuration in cell-9);
the training loop of cell-16 iterates this loader. -/
def trainLoaderBatchSize : ℕ := 128

/-- Size of the MNIST training split loaded by
`torchvision.datasets.MNIST(..., train=True)` (external dataset,
60000 samples). -/
def mnistTrainSize : ℕ := 60000

/-- Size of the MNIST test split loaded with `train=False` (external
dataset, 10000 samples). -/
def mnistTestSize : ℕ := 10000

/-- The index batches the training loop of cell-16 consumes: `train_loader`
from cell-15 chunks the (shuffled) index sequence `idx` into batches of
`trainLoaderBatchSize`. -/
def trainBatches (idx : List ℕ) : List (List ℕ) :=
  chunkList trainLoaderBatchSize idx

/-! ### Loss, gradients, and the Adam optimizer -/

/-- `nn.MSELoss()` (cell-13): the mean of the squared entrywise differences
over all elements of the batch (both batch and feature axes). -/
noncomputable def mseLoss {N n : ℕ} (out target : Mat N n) : ℝ :=
  (∑ i, ∑ j, (out i j - target i j) ^ 2) / (N * n)

/-- Derivative of `relu`: 1 where the pre-activation is positive, else 0. -/
noncomputable def reluGrad (z : ℝ) : ℝ := if 0 < z then 1 else 0

namespace AE

/-- Gradient of `mseLoss (forward p x) x` with respect to the output. -/
noncomputable def dOut {N : ℕ} (p : Params) (x : Mat N 784) : Mat N 784 :=
  Matrix.of fun i j => 2 / (N * 784) * (forward p x i j - x i j)

/-- Gradient at the decoder output pre-activation. -/
noncomputable def d4 {N : ℕ} (p : Params) (x : Mat N 784) : Mat N 784 :=
  Matrix.of fun i j => dOut p x i j * reluGrad (z4 p x i j)

noncomputable def dW4 {N : ℕ} (p : Params) (x : Mat N 784) : Mat 128 784 :=
  (h3 p x).transpose * d4 p x

noncomputable def db4 {N : ℕ} (p : Params) (x : Mat N 784) : Fin 784 → ℝ :=
  fun j => ∑ i, d4 p x i j

/-- Gradient at the decoder hidden activation. -/
noncomputable def dh3 {N : ℕ} (p : Params) (x : Mat N 784) : Mat N 128 :=
  d4 p x * p.W4.transpose

noncomputable def d3 {N : ℕ} (p : Params) (x : Mat N 784) : Mat N 128 :=
  Matrix.of fun i j => dh3 p x i j * reluGrad (z3 p x i j)

noncomputable def dW3 {N : ℕ} (p : Params) (x : Mat N 784) : Mat 128 128 :=
  (h2 p x).transpose * d3 p x

noncomputable def db3 {N : ℕ} (p : Params) (x : Mat N 784) : Fin 128 → ℝ :=
  fun j => ∑ i, d3 p x i j

noncomputable def dh2 {N : ℕ} (p : Params) (x : Mat N 784) : Mat N 128 :=
  d3 p x * p.W3.transpose

noncomputable def d2 {N : ℕ} (p : Params) (x : Mat N 784) : Mat N 128 :=
  Matrix.of fun i j => dh2 p x i j * reluGrad (z2 p x i j)

noncomputable def dW2 {N : ℕ} (p : Params) (x : Mat N 784) : Mat 128 128 :=
  (h1 p x).transpose * d2 p x

noncomputable def db2 {N : ℕ} (p : Params) (x : Mat N 784) : Fin 128 → ℝ :=
  fun j => ∑ i, d2 p x i j

noncomputable def dh1 {N : ℕ} (p : Params) (x : Mat N 784) : Mat N 128 :=
  d2 p x * p.W2.transpose

noncomputable def d1 {N : ℕ} (p : Params) (x : Mat N 784) : Mat N 128 :=
  Matrix.of fun i j => dh1 p x i j * reluGrad (z1 p x i j)

noncomputable def dW1 {N : ℕ} (p : Params) (x : Mat N 784) : Mat 784 128 :=
  x.transpose * d1 p x

noncomputable def db1 {N : ℕ} (p : Params) (x : Mat N 784) : Fin 128 → ℝ :=
  fun j => ∑ i, d1 p x i j

/-- `train_loss.backward()` after `optimizer.zero_grad()` (cell-16): the
reverse-mode gradient of `mseLoss (forward p x) x` in every parameter,
written out by the chain rule layer by layer (`dW = inputᵀ · d_out`,
`db = sum(d_out, axis=0)`, `d_input = d_out · Wᵀ`, relu derivative
elementwise). -/
noncomputable def backward {N : ℕ} (p : Params) (x : Mat N 784) : Params :=
  ⟨dW1 p x, db1 p x, dW2 p x, db2 p x, dW3 p x, db3 p x, dW4 p x, db4 p x⟩

end AE

/-- `optim.Adam` default `beta1` (cell-13 passes only `lr`). -/
noncomputable def adamBeta1 : ℝ := 9/10

/-- `optim.Adam` default `beta2`. -/
noncomputable def adamBeta2 : ℝ := 999/1000

/-- `optim.Adam` default `eps`. -/
noncomputable def adamEps : ℝ := 1/10 ^ 8

/-- One elementwise Adam update at 1-indexed step `t`:
`m' = β1·m + (1-β1)·g`, `v' = β2·v + (1-β2)·g²`, bias correction, and
`p' = p - lr·m̂/(√v̂ + eps)`; returns `(m', v', p')`. -/
noncomputable def adamScalar (t : ℕ) (m v g p : ℝ) : ℝ × ℝ × ℝ :=
  let m' := adamBeta1 * m + (1 - adamBeta1) * g
  let v' := adamBeta2 * v + (1 - adamBeta2) * g ^ 2
  let mhat := m' / (1 - adamBeta1 ^ t)
  let vhat := v' / (1 - adamBeta2 ^ t)
  (m', v', p - learning_rate * mhat / (Real.sqrt vhat + adamEps))

/-- Adam applied entrywise to a weight matrix. -/
noncomputable def adamMat {a b : ℕ} (t : ℕ) (m v g p : Mat a b) :
    Mat a b × Mat a b × Mat a b :=
  (Matrix.of fun i j => (adamScalar t (m i j) (v i j) (g i j) (p i j)).1,
   Matrix.of fun i j => (adamScalar t (m i j) (v i j) (g i j) (p i j)).2.1,
   Matrix.of fun i j => (adamScalar t (m i j) (v i j) (g i j) (p i j)).2.2)

/-- Adam applied entrywise to a bias vector. -/
noncomputable def adamVec {n : ℕ} (t : ℕ) (m v g p : Fin n → ℝ) :
    (Fin n → ℝ) × (Fin n → ℝ) × (Fin n → ℝ) :=
  (fun j => (adamScalar t (m j) (v j) (g j) (p j)).1,
   fun j => (adamScalar t (m j) (v j) (g j) (p j)).2.1,
   fun j => (adamScalar t (m j) (v j) (g j) (p j)).2.2)

/-- The mutable state the training loop owns: the parameter tensors, the
per-parameter Adam moment estimates (same shapes, so reusing `Params`), and
the global step counter. -/
structure TrainState where
  params : Params
  m : Params
  v : Params
  t : ℕ

/-- `optimizer.step()` (cell-16): increments the step counter and performs
one Adam update of every parameter tensor from its gradient tensor. -/
noncomputable def adamStep (s : TrainState) (g : Params) : TrainState :=
  let t' := s.t + 1
  let uW1 := adamMat t' s.m.W1 s.v.W1 g.W1 s.params.W1
  let ub1 := adamVec t' s.m.b1 s.v.b1 g.b1 s.params.b1
  let uW2 := adamMat t' s.m.W2 s.v.W2 g.W2 s.params.W2
  let ub2 := adamVec t' s.m.b2 s.v.b2 g.b2 s.params.b2
  let uW3 := adamMat t' s.m.W3 s.v.W3 g.W3 s.params.W3
  let ub3 := adamVec t' s.m.b3 s.v.b3 g.b3 s.params.b3
  let uW4 := adamMat t' s.m.W4 s.v.W4 g.W4 s.params.W4
  let ub4 := adamVec t' s.m.b4 s.v.b4 g.b4 s.params.b4
  { params := ⟨uW1.2.2, ub1.2.2, uW2.2.2, ub2.2.2, uW3.2.2, ub3.2.2, uW4.2.2, ub4.2.2⟩
    m := ⟨uW1.1, ub1.1, uW2.1, ub2.1, uW3.1, ub3.1, uW4.1, ub4.1⟩
    v := ⟨uW1.2.1, ub1.2.1, uW2.2.1, ub2.2.1, uW3.2.1, ub3.2.1, uW4.2.1, ub4.2.1⟩
    t := t' }

/-- One iteration of the inner loop of cell-16 on batch `x`: zero the
gradients (they are recomputed from scratch), run forward, compute the MSE
loss against the input itself, run backward, run one `optimizer.step()`;
returns the new state and that batch's `train_loss.item()`. -/
noncomputable def trainStep {N : ℕ} (s : TrainState) (x : Mat N 784) :
    TrainState × ℝ :=
  (adamStep s (AE.backward s.params x), mseLoss (AE.forward s.params x) x)

/-! ### The epoch loop and its report line -/

/-- A mini-batch as reshaped by `batch_features.view(-1, 784)`; the batch
dimension varies (the final batch of an epoch is shorter). -/
structure Batch784 where
  n : ℕ
  x : Mat n 784

/-- The inner loop of cell-16 over the epoch's batches, carrying the running
loss accumulator `loss += train_loss.item()`. -/
noncomputable def epochFold (s : TrainState) (acc : ℝ) :
    List Batch784 → TrainState × ℝ
  | [] => (s, acc)
  | b :: rest => epochFold (trainStep s b.x).1 (acc + (trainStep s b.x).2) rest

/-- The successive `train_loss.item()` values along an epoch, batch by
batch (the parameters change after every batch). -/
noncomputable def batchLossTrace (s : TrainState) : List Batch784 → List ℝ
  | [] => []
  | b :: rest => (trainStep s b.x).2 :: batchLossTrace (trainStep s b.x).1 rest

/-- `loss = loss / len(train_loader)` at the end of an epoch of cell-16. -/
noncomputable def epochLoss (s : TrainState) (batches : List Batch784) : ℝ :=
  (epochFold s 0 batches).2 / batches.length

/-- Exactly six decimal digits of `k` (for `k < 10^6`), most significant
first. -/
def sixDigits (k : ℕ) : String :=
  String.mk (((List.range 6).reverse).map fun i => Char.ofNat (48 + k / 10 ^ i % 10))

/-- Fixed-point rendering of the idealized real `x` with six digits after
the decimal point, as Python's `format(x)` with format spec `.6f` prints a
float: optional sign, integer digits, a dot, six fractional digits (the
half-way ties of the rounding are modeled as rounding up). -/
noncomputable def fmt6 (x : ℝ) : String :=
  ((if x < 0 then "-" else "") ++
    toString ((⌊|x| * 10 ^ 6 + 1 / 2⌋).toNat / 10 ^ 6)) ++ "." ++
    sixDigits ((⌊|x| * 10 ^ 6 + 1 / 2⌋).toNat % 10 ^ 6)

/-- The line printed at the end of the 0-based epoch `e` out of `E` in
cell-16. -/
noncomputable def epochReportLine (e E : ℕ) (lossValue : ℝ) : String :=
  "epoch : " ++ toString (e + 1) ++ "/" ++ toString E ++ ", loss = " ++
    fmt6 lossValue

/-- What one epoch of cell-16 reports: the epoch loss value and the printed
line. -/
noncomputable def cell16EpochReport (s : TrainState) (batches : List Batch784)
    (e E : ℕ) : ℝ × String :=
  (epochLoss s batches, epochReportLine e E (epochLoss s batches))

/-! ### The all-zero scenario of C9 -/

/-- The all-zero parameter set. -/
def zeroParams : Params := ⟨0, 0, 0, 0, 0, 0, 0, 0⟩

/-- Zero-initialized optimizer state (`m = v = 0`, step counter 0) over
all-zero parameters. -/
def zeroInitState : TrainState := ⟨zeroParams, zeroParams, zeroParams, 0⟩

/-- Training on the dataset of one all-zero sample starting from all-zero
parameters: the state after `k` steps of the loop of cell-16. -/
noncomputable def trainRunZero : ℕ → TrainState
  | 0 => zeroInitState
  | k + 1 => (trainStep (trainRunZero k) (0 : Mat 1 784)).1

/-! ### Floating point non-finiteness (C3)

`FV` abstracts a floating point value as either a finite real or a
non-finite value; `nan` collapses NaN and ±Infinity, which the spec's
`NumericInstability` treats alike.  Arithmetic propagates non-finiteness
the way IEEE-754 arithmetic turns a NaN operand into a NaN result. -/

inductive FV where
  | fin : ℝ → FV
  | nan : FV

namespace FV

def add : FV → FV → FV
  | fin x, fin y => fin (x + y)
  | _, _ => nan

def sub : FV → FV → FV
  | fin x, fin y => fin (x - y)
  | _, _ => nan

def mul : FV → FV → FV
  | fin x, fin y => fin (x * y)
  | _, _ => nan

noncomputable def div : FV → FV → FV
  | fin x, fin y => if y = 0 then nan else fin (x / y)
  | _, _ => nan

noncomputable def sqrtv : FV → FV
  | fin x => if x < 0 then nan else fin (Real.sqrt x)
  | nan => nan

def isFinite : FV → Bool
  | fin _ => true
  | nan => false

end FV

/-- One Adam update (the cell-13 optimizer: torch defaults and `lr=1e-3`)
of a single parameter coordinate in floating point semantics; returns
`(m', v', p')`.  `optimizer.step()` performs this unconditionally — the
code has no finiteness check and no exception path. -/
noncomputable def adamStepFV (m v g p : FV) (t : ℕ) : FV × FV × FV :=
  let m' := FV.add (FV.mul (FV.fin (9/10)) m) (FV.mul (FV.fin (1/10)) g)
  let v' := FV.add (FV.mul (FV.fin (999/1000)) v)
    (FV.mul (FV.fin (1/1000)) (FV.mul g g))
  let mhat := FV.div m' (FV.fin (1 - (9/10 : ℝ) ^ t))
  let vhat := FV.div v' (FV.fin (1 - (999/1000 : ℝ) ^ t))
  (m', v',
    FV.sub p (FV.div (FV.mul (FV.fin (1/1000)) mhat)
      (FV.add (FV.sqrtv vhat) (FV.fin (1/10 ^ 8)))))

/-- The per-batch optimizer updates of one epoch of cell-16, restricted to a
single parameter coordinate with the batch gradients `gs` injected: each
batch unconditionally feeds its gradient to `optimizer.step()` and the loop
moves on to the next batch; returns the final parameter value and the number
of batches processed.  The loop body has no exception handling and no abort
path. -/
noncomputable def runBatchesFV : FV → FV → FV → ℕ → List FV → FV × ℕ
  | p, _, _, _, [] => (p, 0)
  | p, m, v, t, g :: gs =>
      ((runBatchesFV (adamStepFV m v g p (t + 1)).2.2 (adamStepFV m v g p (t + 1)).1
          (adamStepFV m v g p (t + 1)).2.1 (t + 1) gs).1,
       (runBatchesFV (adamStepFV m v g p (t + 1)).2.2 (adamStepFV m v g p (t + 1)).1
          (adamStepFV m v g p (t + 1)).2.1 (t + 1) gs).2 + 1)

/-! ### The global random generator (C4)

The shuffling of `DataLoader(..., shuffle=True)` draws from torch's global
CPU generator, seeded once by `torch.manual_seed(seed)` in cell-5.  The
generator's actual algorithm (MT19937) is abstracted by a linear
congruential step: every fact proved here depends only on the shuffle being
a deterministic function of the global state, never on the particular
permutation produced. -/

/-- The state of torch's global CPU random generator. -/
structure TorchGlobal where
  rngState : ℕ

/-- One step of the modeled global generator. -/
def lcgNext (s : ℕ) : ℕ := (1103515245 * s + 12345) % 2 ^ 31

/-- `torch.manual_seed(seed)` (cell-5): overwrites the global generator
state with a state determined by the seed alone, discarding whatever state
was there before. -/
def torchManualSeed (seed : ℕ) (_g : TorchGlobal) : TorchGlobal := ⟨seed⟩

/-- Fisher–Yates shuffle driven by the generator (fuel-indexed so it
reduces definitionally; fuel `l.length` suffices). -/
def fyAux : ℕ → ℕ → List ℕ → List ℕ
  | 0, _, _ => []
  | _ + 1, _, [] => []
  | fuel + 1, rng, a :: t =>
      (a :: t).getD (rng % (a :: t).length) 0 ::
        fyAux fuel (lcgNext rng) ((a :: t).eraseIdx (rng % (a :: t).length))

/-- The shuffled ordering of `[0, n)` that the training `DataLoader` draws
from the global generator at the start of an epoch. -/
def epochOrder (g : TorchGlobal) (n : ℕ) : List ℕ :=
  fyAux n g.rngState (List.range n)

/-- The orderings of the successive epochs: the global generator state
advances between epochs (the exact schedule is abstracted as one `lcgNext`
per epoch). -/
def notebookBatchOrders (g : TorchGlobal) (E n : ℕ) : List (List ℕ) :=
  (List.range E).map fun e => epochOrder ⟨lcgNext^[e] g.rngState⟩ n

/-- Materialize the mini-batch with the given dataset indices
(`batch_features.view(-1, 784)`): row `r` holds sample `idx[r]`. -/
noncomputable def materializeBatch (data : ℕ → Fin 784 → ℝ) (idx : List ℕ) :
    Batch784 :=
  ⟨idx.length, Matrix.of fun r c => data (idx.getD r.1 0) c⟩

/-- The per-epoch reported losses of the whole training run of cell-16,
threading the model/optimizer state across epochs. -/
noncomputable def runEpochLosses (s : TrainState) :
    List (List Batch784) → List ℝ
  | [] => []
  | bs :: rest =>
      ((epochFold s 0 bs).2 / bs.length) ::
        runEpochLosses (epochFold s 0 bs).1 rest

/-- The training run as the notebook executes it from an ambient global
generator state `g`: cell-5 seeds the generator, the per-epoch shuffles are
drawn from it, batches of 128 are materialized from the shuffled indices,
and cell-16 produces the per-epoch losses. -/
noncomputable def notebookRunLosses (g : TorchGlobal) (seed E : ℕ)
    (data : ℕ → Fin 784 → ℝ) (s : TrainState) : List ℝ :=
  runEpochLosses s
    ((notebookBatchOrders (torchManualSeed seed g) E mnistTrainSize).map
      fun ord => (chunkList trainLoaderBatchSize ord).map (materializeBatch data))

/-! ### Evaluation (C8, C10) -/

/-- cell-18: under `torch.no_grad()`, apply `model` to the test batch.  The
forward pass contains no in-place operation and no optimizer interaction
and reads only the parameter tensors, so the program state comes back
unchanged with the reconstruction. -/
noncomputable def evalNoGrad (s : TrainState) (x : Mat 10 784) :
    Mat 10 784 × TrainState :=
  (AE.forward s.params x, s)

/-- cell-18: the batches of `test_loader` (`batch_size=10, shuffle=False`):
sequential index chunks of 10 over the 10000 test samples. -/
def cell18BatchIndices : List (List ℕ) := chunkList 10 (List.range mnistTestSize)

/-- The indices the evaluation loop evaluates: the loop body ends in
`break`, so only the first batch is consumed. -/
def evaluatedIndices : List ℕ := cell18BatchIndices.headD []

/-- The reconstruction handed to the visualization of cell-19:
`model(test_examples)` on the first test batch. -/
noncomputable def cell18Reconstruction (data : ℕ → Fin 784 → ℝ)
    (s : TrainState) : Mat 10 784 :=
  AE.forward s.params (Matrix.of fun r c => data (evaluatedIndices.getD r.1 0) c)

theorem chunkAux_nil (bs fuel : ℕ) : chunkAux bs fuel ([] : List α) = [] := by
  cases fuel <;> rfl

theorem chunkAux_succ_cons (bs fuel : ℕ) (a : α) (t : List α) :
    chunkAux bs (fuel + 1) (a :: t) =
      ((a :: t).take bs) :: chunkAux bs fuel ((a :: t).drop bs) := rfl

theorem chunkAux_eq_nil (bs : ℕ) (fuel : ℕ) (l : List α) (hl : l.length ≤ fuel)
    (h : chunkAux bs fuel l = []) : l = [] := by
  cases fuel with
  | zero => exact List.length_eq_zero.mp (Nat.le_zero.mp hl)
  | succ fuel =>
    cases l with
    | nil => rfl
    | cons a t => rw [chunkAux_succ_cons] at h; cases h

/-- Concatenating the chunks recovers the original list. -/
theorem chunkAux_flatten (bs : ℕ) (hbs : 0 < bs) :
    ∀ (fuel : ℕ) (l : List α), l.length ≤ fuel → (chunkAux bs fuel l).flatten = l := by
  intro fuel
  induction fuel with
  | zero =>
    intro l hl
    rw [List.length_eq_zero.mp (Nat.le_zero.mp hl)]
    rfl
  | succ fuel ih =>
    intro l hl
    cases l with
    | nil => rfl
    | cons a t =>
      rw [chunkAux_succ_cons, List.flatten_cons, ih]
      · exact List.take_append_drop bs (a :: t)
      · rw [List.length_drop]
        simp only [List.length_cons] at hl ⊢
        omega

/-- Every chunk has at most `bs` elements. -/
theorem chunkAux_length_le (bs : ℕ) :
    ∀ (fuel : ℕ) (l : List α), ∀ b ∈ chunkAux bs fuel l, b.length ≤ bs := by
  intro fuel
  induction fuel with
  | zero => intro l b hb; cases hb
  | succ fuel ih =>
    intro l b hb
    cases l with
    | nil => rw [chunkAux_nil] at hb; cases hb
    | cons a t =>
      rw [chunkAux_succ_cons] at hb
      rcases List.mem_cons.mp hb with rfl | hb'
      · rw [List.length_take]; exact min_le_left _ _
      · exact ih _ b hb'

/-- Every chunk except possibly the last has exactly `bs` elements. -/
theorem chunkAux_dropLast_length (bs : ℕ) (hbs : 0 < bs) :
    ∀ (fuel : ℕ) (l : List α), l.length ≤ fuel →
      ∀ b ∈ (chunkAux bs fuel l).dropLast, b.length = bs := by
  intro fuel
  induction fuel with
  | zero => intro l _ b hb; cases hb
  | succ fuel ih =>
    intro l hl b hb
    cases l with
    | nil => rw [chunkAux_nil] at hb; cases hb
    | cons a t =>
      have hdl : ((a :: t).drop bs).length ≤ fuel := by
        rw [List.length_drop]; simp only [List.length_cons] at hl ⊢; omega
      rw [chunkAux_succ_cons] at hb
      rcases h : chunkAux bs fuel ((a :: t).drop bs) with _ | ⟨c, cs⟩
      · rw [h] at hb; cases hb
      · rw [h] at hb
        have hb2 : b ∈ ((a :: t).take bs) :: (c :: cs).dropLast := by
          simpa using hb
        rcases List.mem_cons.mp hb2 with rfl | hb'
        · have hdrop : (a :: t).drop bs ≠ [] := by
            intro hnil
            rw [hnil, chunkAux_nil] at h
            cases h
          have hlt : bs < (a :: t).length := by
            by_contra hle
            exact hdrop (List.drop_eq_nil_iff.mpr (Nat.le_of_not_lt hle))
          rw [List.length_take]
          omega
        · exact ih _ hdl b (h ▸ hb')

/-- The length of the final chunk: `bs` when `bs` divides the list length,
the remainder otherwise. -/
theorem chunkAux_getLast_length (bs : ℕ) (hbs : 0 < bs) :
    ∀ (fuel : ℕ) (l : List α), l.length ≤ fuel →
      ∀ b, (chunkAux bs fuel l).getLast? = some b →
        b.length = if l.length % bs = 0 then bs else l.length % bs := by
  intro fuel
  induction fuel with
  | zero => intro l _ b hb; cases hb
  | succ fuel ih =>
    intro l hl b hb
    cases l with
    | nil => rw [chunkAux_nil] at hb; cases hb
    | cons a t =>
      have hdl : ((a :: t).drop bs).length ≤ fuel := by
        rw [List.length_drop]; simp only [List.length_cons] at hl ⊢; omega
      rw [chunkAux_succ_cons] at hb
      rcases h : chunkAux bs fuel ((a :: t).drop bs) with _ | ⟨c, cs⟩
      · rw [h, List.getLast?_singleton] at hb
        have hdrop : (a :: t).drop bs = [] := chunkAux_eq_nil bs fuel _ hdl h
        have hle : (a :: t).length ≤ bs := List.drop_eq_nil_iff.mp hdrop
        have hbeq : b = a :: t := by
          have := List.take_of_length_le hle
          rw [this] at hb
          exact (Option.some_inj.mp hb).symm
        subst hbeq
        rcases Nat.lt_or_ge (a :: t).length bs with hlt | hge
        · rw [if_neg]
          · exact (Nat.mod_eq_of_lt hlt).symm
          · rw [Nat.mod_eq_of_lt hlt]
            simp
        · have : (a :: t).length = bs := Nat.le_antisymm hle hge
          rw [this, Nat.mod_self, if_pos rfl]

      · rw [h, List.getLast?_cons_cons, ← h] at hb
        have hdrop : (a :: t).drop bs ≠ [] := by
          intro hnil
          rw [hnil, chunkAux_nil] at h
          cases h
        have hlt : bs < (a :: t).length := by
          by_contra hle
          exact hdrop (List.drop_eq_nil_iff.mpr (Nat.le_of_not_lt hle))
        have hrec := ih _ hdl b hb
        rw [List.length_drop] at hrec
        have hmod : ((a :: t).length - bs) % bs = (a :: t).length % bs := by
          conv_rhs => rw [← Nat.sub_add_cancel (Nat.le_of_lt hlt)]
          rw [Nat.add_mod_right]
        rw [hmod] at hrec
        exact hrec

/-- C6: one pass of the batch sampler over a dataset of size `S` (in any
order `idx` that is a permutation of `[0, S)`, covering both the shuffled
training loader and the sequential test loader) yields batches whose indices
cover `[0, S)` exactly once; every batch has exactly `batch_size` indices
except possibly the final one, which is shorter iff `S` is not divisible by
`batch_size`. -/
theorem C6_sampler_partition (S bs : ℕ) (hbs : 0 < bs) (idx : List ℕ)
    (hperm : idx.Perm (List.range S)) :
    (chunkList bs idx).flatten.Perm (List.range S)
    ∧ (∀ b ∈ (chunkList bs idx).dropLast, b.length = bs)
    ∧ (∀ b ∈ chunkList bs idx, b.length ≤ bs)
    ∧ (∀ b, (chunkList bs idx).getLast? = some b → (b.length < bs ↔ S % bs ≠ 0)) := by
  have hlen : idx.length = S := by rw [hperm.length_eq, List.length_range]
  refine ⟨?_, ?_, ?_, ?_⟩
  · rw [chunkList, chunkAux_flatten bs hbs idx.length idx (le_refl _)]
    exact hperm
  · exact chunkAux_dropLast_length bs hbs idx.length idx (le_refl _)
  · exact chunkAux_length_le bs idx.length idx
  · intro b hb
    have := chunkAux_getLast_length bs hbs idx.length idx (le_refl _) b hb
    rw [hlen] at this
    rcases Nat.eq_zero_or_pos (S % bs) with hz | hp
    · rw [hz, if_pos rfl] at this
      rw [this, hz]
      simp
    · rw [if_neg (Nat.pos_iff_ne_zero.mp hp)] at this
      rw [this]
      constructor
      · intro _; exact Nat.pos_iff_ne_zero.mp hp
      · intro _; exact Nat.mod_lt _ hbs

/-- Witness for C6 at `S = 5`, `bs = 2`, `idx = [4,0,3,1,2]`. -/
theorem C6_sampler_partition_witness :
    (chunkList 2 [4,0,3,1,2]).flatten.Perm (List.range 5)
    ∧ (∀ b ∈ (chunkList 2 [4,0,3,1,2]).dropLast, b.length = 2)
    ∧ (∀ b ∈ chunkList 2 [4,0,3,1,2], b.length ≤ 2)
    ∧ (∀ b, (chunkList 2 [4,0,3,1,2]).getLast? = some b → (b.length < 2 ↔ 5 % 2 ≠ 0)) :=
  C6_sampler_partition 5 2 (by norm_num) [4,0,3,1,2] (by decide)

/-! ### Configuration surface and the loaders actually consumed -/

/-- Every entry of a relu is nonnegative. -/
theorem relu_nonneg {m n : ℕ} (M : Mat m n) (i : Fin m) (j : Fin n) :
    0 ≤ relu M i j := by
  simp [relu]

/-- C1: `AE.forward` returns `relu(relu(relu(relu(x*W1+b1)*W2+b2)*W3+b3)*W4+b4)`
with the elementwise nonlinearity applied at all four layers including the
output; the output has shape `(N, 784)` (carried by its type), and every
output element is nonnegative. -/
theorem C1_forward_four_relu_layers (N : ℕ) (p : Params) (x : Mat N 784) :
    AE.forward p x =
      relu (linear p.W4 p.b4
        (relu (linear p.W3 p.b3
          (relu (linear p.W2 p.b2
            (relu (linear p.W1 p.b1 x)))))))
    ∧ ∀ (i : Fin N) (j : Fin 784), 0 ≤ AE.forward p x i j := by
  refine ⟨rfl, fun i j => ?_⟩
  exact relu_nonneg _ i j

theorem chunkAux_head (bs fuel : ℕ) (l : List α) (hf : 0 < fuel) (hl : l ≠ []) :
    (chunkAux bs fuel l).head? = some (l.take bs) := by
  cases fuel with
  | zero => exact absurd hf (by omega)
  | succ fuel =>
    cases l with
    | nil => exact absurd rfl hl
    | cons a t => rfl

/-- C7 counterexample: the first batch the epoch loop draws has 128 samples,
not the configured `batch_size = 512` — cell-15 hard-codes `batch_size=128`
in the loader the loop iterates. -/
theorem C7_counterexample :
    (trainBatches (List.range mnistTrainSize)).head?.map List.length = some 128
    ∧ (128 : ℕ) ≠ batch_size := by
  constructor
  · rw [trainBatches, chunkList, chunkAux_head]
    · simp only [Option.map_some', List.length_take, List.length_range]
      norm_num [mnistTrainSize, trainLoaderBatchSize]
    · rw [List.length_range]; norm_num [mnistTrainSize]
    · simp [List.range_eq_nil, mnistTrainSize]
  · norm_num [batch_size]

/-- C7 amended: every training batch drawn during the epoch loop has exactly
128 samples — the batch size hard-coded in the cell-15 loader, not the
configured `batch_size = 512` — except the final batch of an epoch, which
has `60000 % 128 = 96` samples. -/
theorem C7_amended_train_batches (idx : List ℕ)
    (hperm : idx.Perm (List.range mnistTrainSize)) :
    trainLoaderBatchSize = 128
    ∧ batch_size = 512
    ∧ (∀ b ∈ (trainBatches idx).dropLast, b.length = 128)
    ∧ (∀ b, (trainBatches idx).getLast? = some b → b.length = 96) := by
  have hlen : idx.length = 60000 := by
    rw [hperm.length_eq, List.length_range, mnistTrainSize]
  refine ⟨rfl, rfl, ?_, ?_⟩
  · exact chunkAux_dropLast_length trainLoaderBatchSize (by norm_num [trainLoaderBatchSize])
      idx.length idx (le_refl _)
  · intro b hb
    have := chunkAux_getLast_length trainLoaderBatchSize
      (by norm_num [trainLoaderBatchSize]) idx.length idx (le_refl _) b hb
    rw [hlen] at this
    norm_num [trainLoaderBatchSize] at this
    exact this

/-- C8: the Evaluator runs only `Model.forward` with no gradient tracking on
the fixed-size unshuffled held-out batch: on a batch of shape (10, 784) it
returns a tensor of shape (10, 784) (carried by the type), its output is the
forward pass and depends only on the parameter tensors, and it leaves every
parameter tensor and every optimizer state entry unchanged. -/
theorem C8_eval_frame (s s' : TrainState) (x : Mat 10 784)
    (hp : s.params = s'.params) :
    (evalNoGrad s x).2 = s
    ∧ (evalNoGrad s x).1 = AE.forward s.params x
    ∧ (evalNoGrad s x).1 = (evalNoGrad s' x).1 := by
  refine ⟨rfl, rfl, ?_⟩
  simp only [evalNoGrad, hp]

/-- Witness for C8 at the zero state and the zero batch. -/
theorem C8_eval_frame_witness :
    (evalNoGrad zeroInitState 0).2 = zeroInitState
    ∧ (evalNoGrad zeroInitState 0).1 = AE.forward zeroInitState.params 0
    ∧ (evalNoGrad zeroInitState 0).1 = (evalNoGrad zeroInitState 0).1 :=
  C8_eval_frame zeroInitState zeroInitState 0 rfl

/-- C10: the reconstruction handed to visualization is `Model.forward`
applied to exactly the first 10 samples of the held-out test set in dataset
index order: the evaluation loop draws unshuffled batches of size 10 and
breaks after the first, so the evaluated indices are `[0, …, 9]` and no test
sample beyond index 9 is ever evaluated. -/
theorem C10_eval_first_ten (data : ℕ → Fin 784 → ℝ) (s : TrainState) :
    evaluatedIndices = List.range 10
    ∧ evaluatedIndices.all (fun i => decide (i < 10)) = true
    ∧ cell18Reconstruction data s =
        AE.forward s.params (Matrix.of fun r c => data r.1 c) := by
  have hhead : cell18BatchIndices.head? = some (List.range 10) := by
    rw [cell18BatchIndices, chunkList, chunkAux_head]
    · rw [List.take_range]
      norm_num [mnistTestSize]
    · rw [List.length_range]; norm_num [mnistTestSize]
    · simp [List.range_eq_nil, mnistTestSize]
  have hidx : evaluatedIndices = List.range 10 := by
    rw [evaluatedIndices]
    rcases hdef : cell18BatchIndices with _ | ⟨a, t⟩
    · rw [hdef] at hhead; cases hhead
    · rw [hdef] at hhead
      simp only [List.head?_cons, Option.some_inj] at hhead
      simpa using hhead
  refine ⟨hidx, ?_, ?_⟩
  · rw [hidx]; decide
  · have hmat : (Matrix.of fun (r : Fin 10) (c : Fin 784) =>
        data ((List.range 10).getD r.1 0) c) =
        Matrix.of fun (r : Fin 10) (c : Fin 784) => data r.1 c := by
      ext r c
      simp only [Matrix.of_apply]
      rw [List.getD_eq_getElem (List.range 10) 0
        (by rw [List.length_range]; exact r.2), List.getElem_range]
    rw [cell18Reconstruction, hidx, hmat]

/-- C4 counterexample: the shuffled ordering the training loader draws is a
function of the hidden global generator state — two ambient global states
yield different orderings for the same dataset, with no caller-supplied
random source anywhere in the loader construction (cells 9 and 15 pass no
generator argument). -/
theorem C4_counterexample_hidden_global_state :
    epochOrder ⟨0⟩ 3 ≠ epochOrder ⟨1⟩ 3 := by decide

/-- C4 amended: the shuffling randomness comes from torch's hidden global
generator, but because cell-5 seeds it explicitly with
`torch.manual_seed(seed)` — overwriting whatever ambient state `g` was there
— the batch orderings and the per-epoch loss sequence of the whole run are a
function of the seed alone: two runs from the same seed coincide exactly. -/
theorem C4_amended_seeded_determinism (g g' : TorchGlobal) (seed E : ℕ)
    (data : ℕ → Fin 784 → ℝ) (s : TrainState) :
    notebookBatchOrders (torchManualSeed seed g) E mnistTrainSize =
      notebookBatchOrders (torchManualSeed seed g') E mnistTrainSize
    ∧ notebookRunLosses g seed E data s = notebookRunLosses g' seed E data s :=
  ⟨rfl, rfl⟩

/-- C3 counterexample: injecting a NaN gradient does not raise and does not
abort the epoch — the loop of cell-16 processes the NaN batch and the
following batch (all `2 = number of batches`, completing the epoch) and ends
with a non-finite parameter. -/
theorem C3_counterexample_nan_continues :
    (runBatchesFV (FV.fin 0) (FV.fin 0) (FV.fin 0) 0 [FV.nan, FV.fin 1]).2 =
      [FV.nan, FV.fin 1].length
    ∧ (runBatchesFV (FV.fin 0) (FV.fin 0) (FV.fin 0) 0 [FV.nan, FV.fin 1]).1 =
        FV.nan
    ∧ FV.isFinite
        (runBatchesFV (FV.fin 0) (FV.fin 0) (FV.fin 0) 0 [FV.nan, FV.fin 1]).1 =
        false :=
  ⟨rfl, rfl, rfl⟩

/-- C3 amended: a NaN gradient makes the next `optimizer.step()` store a
non-finite (NaN) parameter, and the training loop silently continues —
every epoch processes every one of its batches regardless of the gradients;
the code raises no `NumericInstability` and has no `Failed` state. -/
theorem C3_amended_silent_nan_propagation :
    (∀ (p m v : FV) (t : ℕ) (gs : List FV),
      (runBatchesFV p m v t gs).2 = gs.length)
    ∧ (∀ (m v p : FV) (t : ℕ), (adamStepFV m v FV.nan p t).2.2 = FV.nan) := by
  constructor
  · intro p m v t gs
    induction gs generalizing p m v t with
    | nil => rfl
    | cons g rest ih =>
      simp only [runBatchesFV, List.length_cons]
      rw [ih]
  · intro m v p t
    cases m <;> cases v <;> cases p <;> rfl

/-- Witness for the amended C7 at the identity ordering of the 60000 training
indices. -/
theorem C7_amended_train_batches_witness :
    trainLoaderBatchSize = 128
    ∧ batch_size = 512
    ∧ (∀ b ∈ (trainBatches (List.range mnistTrainSize)).dropLast, b.length = 128)
    ∧ (∀ b, (trainBatches (List.range mnistTrainSize)).getLast? = some b →
        b.length = 96) :=
  C7_amended_train_batches (List.range mnistTrainSize) (List.Perm.refl _)

/-- The loss accumulator of the epoch loop equals its initial value plus the
sum of the per-batch losses along the trajectory. -/
theorem epochFold_sum (batches : List Batch784) :
    ∀ (s : TrainState) (acc : ℝ),
      (epochFold s acc batches).2 = acc + (batchLossTrace s batches).sum := by
  induction batches with
  | nil => intro s acc; simp [epochFold, batchLossTrace]
  | cons b rest ih =>
    intro s acc
    rw [epochFold, batchLossTrace, List.sum_cons, ih]
    ring

/-- `sixDigits` always renders exactly six characters. -/
theorem sixDigits_length (k : ℕ) : (sixDigits k).length = 6 := by
  simp [sixDigits]

/-- `fmt6` always renders a dot followed by exactly six fractional digits. -/
theorem fmt6_parts (x : ℝ) :
    ∃ ip frac, fmt6 x = ip ++ "." ++ frac ∧ frac.length = 6 :=
  ⟨(if x < 0 then "-" else "") ++
      toString ((⌊|x| * 10 ^ 6 + 1 / 2⌋).toNat / 10 ^ 6),
    sixDigits ((⌊|x| * 10 ^ 6 + 1 / 2⌋).toNat % 10 ^ 6),
    rfl, sixDigits_length _⟩

/-- C2: for every epoch, the reported epoch loss equals the sum, over that
epoch's batches, of the per-batch loss `mean((output - target)^2)` (the MSE
of the forward output against the batch itself, over both axes) divided by
the number of batches, and the report is emitted as the line
`epoch : <i>/<N>, loss = <float with exactly six decimal places>`. -/
theorem C2_epoch_loss_report (s : TrainState) (batches : List Batch784)
    (e E : ℕ) :
    (cell16EpochReport s batches e E).1 =
      (batchLossTrace s batches).sum / batches.length
    ∧ (∀ (s0 : TrainState) (b : Batch784),
        (trainStep s0 b.x).2 = mseLoss (AE.forward s0.params b.x) b.x)
    ∧ (cell16EpochReport s batches e E).2 =
        "epoch : " ++ toString (e + 1) ++ "/" ++ toString E ++ ", loss = " ++
          fmt6 ((batchLossTrace s batches).sum / batches.length)
    ∧ ∃ ip frac,
        fmt6 ((batchLossTrace s batches).sum / batches.length) =
          ip ++ "." ++ frac ∧ frac.length = 6 := by
  have hval : (cell16EpochReport s batches e E).1 =
      (batchLossTrace s batches).sum / batches.length := by
    rw [cell16EpochReport, epochLoss, epochFold_sum, zero_add]
  refine ⟨hval, fun s0 b => rfl, ?_, fmt6_parts _⟩
  show epochReportLine e E (epochLoss s batches) = _
  rw [show epochLoss s batches =
        (batchLossTrace s batches).sum / batches.length from hval]
  rfl

/-- C5: one Optimizer step from the zero-initialized moment estimates
(`m = v = 0`, step counter moving to `t = 1`) on a parameter element with a
non-zero gradient element `g` changes the parameter by a non-zero amount
bounded elementwise by the learning rate: `0 < |delta| ≤ lr`, where the step
is `p - lr * m̂/(√v̂ + eps)` with bias-corrected moments (at `t = 1`,
`m̂ = g`, `v̂ = g²`, so `delta = -lr·g/(|g| + eps)`). -/
theorem C5_first_step_delta_bounded (g p : ℝ) (hg : g ≠ 0) :
    0 < |(adamScalar 1 0 0 g p).2.2 - p|
    ∧ |(adamScalar 1 0 0 g p).2.2 - p| ≤ learning_rate := by
  have habs : 0 < |g| := abs_pos.mpr hg
  have heps : (0 : ℝ) < adamEps := by rw [adamEps]; norm_num
  have hlr : (0 : ℝ) < learning_rate := by rw [learning_rate]; norm_num
  have hd : 0 < |g| + adamEps := add_pos_of_nonneg_of_pos (abs_nonneg g) heps
  have h1 : (1 : ℝ) - adamBeta1 ≠ 0 := by rw [adamBeta1]; norm_num
  have h2 : (1 : ℝ) - adamBeta2 ≠ 0 := by rw [adamBeta2]; norm_num
  have hstep : (adamScalar 1 0 0 g p).2.2 =
      p - learning_rate * g / (Real.sqrt (g ^ 2) + adamEps) := by
    simp only [adamScalar, mul_zero, zero_add, pow_one]
    rw [mul_div_cancel_left₀ g h1, mul_div_cancel_left₀ (g ^ 2) h2]
  have hval : (adamScalar 1 0 0 g p).2.2 - p =
      -(learning_rate * g / (|g| + adamEps)) := by
    rw [hstep, Real.sqrt_sq_eq_abs]
    ring
  rw [hval, abs_neg, abs_div, abs_mul, abs_of_pos hlr, abs_of_pos hd]
  constructor
  · exact div_pos (mul_pos hlr habs) hd
  · rw [div_le_iff₀ hd]
    exact mul_le_mul_of_nonneg_left (le_add_of_nonneg_right heps.le) hlr.le

/-- Witness for C5 at gradient 1 and parameter 0. -/
theorem C5_first_step_delta_bounded_witness :
    0 < |(adamScalar 1 0 0 1 0).2.2 - 0|
    ∧ |(adamScalar 1 0 0 1 0).2.2 - 0| ≤ learning_rate :=
  C5_first_step_delta_bounded 1 0 one_ne_zero

theorem linear_zeros {m k n : ℕ} (x : Mat m k) :
    linear (0 : Mat k n) 0 x = 0 := by
  ext i j
  simp [linear]

theorem relu_zero {m n : ℕ} : relu (0 : Mat m n) = 0 := by
  ext i j
  simp [relu]

theorem z1_zeroParams {N : ℕ} (x : Mat N 784) : AE.z1 zeroParams x = 0 := by
  rw [AE.z1]; exact linear_zeros x

theorem h1_zeroParams {N : ℕ} (x : Mat N 784) : AE.h1 zeroParams x = 0 := by
  rw [AE.h1, z1_zeroParams, relu_zero]

theorem z2_zeroParams {N : ℕ} (x : Mat N 784) : AE.z2 zeroParams x = 0 := by
  rw [AE.z2]; exact linear_zeros _

theorem h2_zeroParams {N : ℕ} (x : Mat N 784) : AE.h2 zeroParams x = 0 := by
  rw [AE.h2, z2_zeroParams, relu_zero]

theorem z3_zeroParams {N : ℕ} (x : Mat N 784) : AE.z3 zeroParams x = 0 := by
  rw [AE.z3]; exact linear_zeros _

theorem h3_zeroParams {N : ℕ} (x : Mat N 784) : AE.h3 zeroParams x = 0 := by
  rw [AE.h3, z3_zeroParams, relu_zero]

theorem z4_zeroParams {N : ℕ} (x : Mat N 784) : AE.z4 zeroParams x = 0 := by
  rw [AE.z4]; exact linear_zeros _

theorem forward_zeroParams {N : ℕ} (x : Mat N 784) :
    AE.forward zeroParams x = 0 := by
  rw [AE.forward, z4_zeroParams, relu_zero]

theorem dOut_zeroParams {N : ℕ} : AE.dOut zeroParams (0 : Mat N 784) = 0 := by
  ext i j
  simp [AE.dOut, forward_zeroParams]

theorem d4_zeroParams {N : ℕ} : AE.d4 zeroParams (0 : Mat N 784) = 0 := by
  ext i j
  simp [AE.d4, dOut_zeroParams]

theorem dW4_zeroParams {N : ℕ} : AE.dW4 zeroParams (0 : Mat N 784) = 0 := by
  rw [AE.dW4, h3_zeroParams, Matrix.transpose_zero, Matrix.zero_mul]

theorem db4_zeroParams {N : ℕ} : AE.db4 zeroParams (0 : Mat N 784) = 0 := by
  funext j
  show ∑ i, AE.d4 zeroParams (0 : Mat N 784) i j = 0
  rw [d4_zeroParams]
  simp

theorem dh3_zeroParams {N : ℕ} : AE.dh3 zeroParams (0 : Mat N 784) = 0 := by
  rw [AE.dh3, d4_zeroParams, Matrix.zero_mul]

theorem d3_zeroParams {N : ℕ} : AE.d3 zeroParams (0 : Mat N 784) = 0 := by
  ext i j
  simp [AE.d3, dh3_zeroParams]

theorem dW3_zeroParams {N : ℕ} : AE.dW3 zeroParams (0 : Mat N 784) = 0 := by
  rw [AE.dW3, h2_zeroParams, Matrix.transpose_zero, Matrix.zero_mul]

theorem db3_zeroParams {N : ℕ} : AE.db3 zeroParams (0 : Mat N 784) = 0 := by
  funext j
  show ∑ i, AE.d3 zeroParams (0 : Mat N 784) i j = 0
  rw [d3_zeroParams]
  simp

theorem dh2_zeroParams {N : ℕ} : AE.dh2 zeroParams (0 : Mat N 784) = 0 := by
  rw [AE.dh2, d3_zeroParams, Matrix.zero_mul]

theorem d2_zeroParams {N : ℕ} : AE.d2 zeroParams (0 : Mat N 784) = 0 := by
  ext i j
  simp [AE.d2, dh2_zeroParams]

theorem dW2_zeroParams {N : ℕ} : AE.dW2 zeroParams (0 : Mat N 784) = 0 := by
  rw [AE.dW2, h1_zeroParams, Matrix.transpose_zero, Matrix.zero_mul]

theorem db2_zeroParams {N : ℕ} : AE.db2 zeroParams (0 : Mat N 784) = 0 := by
  funext j
  show ∑ i, AE.d2 zeroParams (0 : Mat N 784) i j = 0
  rw [d2_zeroParams]
  simp

theorem dh1_zeroParams {N : ℕ} : AE.dh1 zeroParams (0 : Mat N 784) = 0 := by
  rw [AE.dh1, d2_zeroParams, Matrix.zero_mul]

theorem d1_zeroParams {N : ℕ} : AE.d1 zeroParams (0 : Mat N 784) = 0 := by
  ext i j
  simp [AE.d1, dh1_zeroParams]

theorem dW1_zeroParams {N : ℕ} : AE.dW1 zeroParams (0 : Mat N 784) = 0 := by
  rw [AE.dW1, Matrix.transpose_zero, Matrix.zero_mul]

theorem db1_zeroParams {N : ℕ} : AE.db1 zeroParams (0 : Mat N 784) = 0 := by
  funext j
  show ∑ i, AE.d1 zeroParams (0 : Mat N 784) i j = 0
  rw [d1_zeroParams]
  simp

/-- The backward pass through the all-zero network on the all-zero batch
yields all-zero gradients. -/
theorem backward_zeroParams {N : ℕ} :
    AE.backward zeroParams (0 : Mat N 784) = zeroParams := by
  rw [AE.backward, dW1_zeroParams, db1_zeroParams, dW2_zeroParams,
    db2_zeroParams, dW3_zeroParams, db3_zeroParams, dW4_zeroParams,
    db4_zeroParams]
  rfl

/-- An Adam update with zero moments, zero gradient, and zero parameter
leaves everything at zero. -/
theorem adamScalar_zero (t : ℕ) : adamScalar t 0 0 0 0 = (0, 0, 0) := by
  simp [adamScalar, Real.sqrt_zero]

theorem adamMat_zero_fst {a b : ℕ} (t : ℕ) :
    (adamMat t (0 : Mat a b) 0 0 0).1 = 0 := by
  ext i j
  simp [adamMat, adamScalar_zero]

theorem adamMat_zero_snd_fst {a b : ℕ} (t : ℕ) :
    (adamMat t (0 : Mat a b) 0 0 0).2.1 = 0 := by
  ext i j
  simp [adamMat, adamScalar_zero]

theorem adamMat_zero_snd_snd {a b : ℕ} (t : ℕ) :
    (adamMat t (0 : Mat a b) 0 0 0).2.2 = 0 := by
  ext i j
  simp [adamMat, adamScalar_zero]

theorem adamVec_zero_fst {n : ℕ} (t : ℕ) :
    (adamVec t (0 : Fin n → ℝ) 0 0 0).1 = 0 := by
  funext j
  simp [adamVec, adamScalar_zero]

theorem adamVec_zero_snd_fst {n : ℕ} (t : ℕ) :
    (adamVec t (0 : Fin n → ℝ) 0 0 0).2.1 = 0 := by
  funext j
  simp [adamVec, adamScalar_zero]

theorem adamVec_zero_snd_snd {n : ℕ} (t : ℕ) :
    (adamVec t (0 : Fin n → ℝ) 0 0 0).2.2 = 0 := by
  funext j
  simp [adamVec, adamScalar_zero]

/-- `optimizer.step()` on the all-zero state with all-zero gradients leaves
parameters and moments at zero and only advances the step counter. -/
theorem adamStep_zeroState (t : ℕ) :
    adamStep ⟨zeroParams, zeroParams, zeroParams, t⟩ zeroParams =
      ⟨zeroParams, zeroParams, zeroParams, t + 1⟩ := by
  simp [adamStep, zeroParams, adamMat_zero_fst, adamMat_zero_snd_fst,
    adamMat_zero_snd_snd, adamVec_zero_fst, adamVec_zero_snd_fst,
    adamVec_zero_snd_snd]

theorem mseLoss_zero {N n : ℕ} : mseLoss (0 : Mat N n) 0 = 0 := by
  simp [mseLoss]

/-- One loop iteration of cell-16 on the all-zero batch from the all-zero
state: the state stays all-zero (only the step counter advances) and the
batch loss is exactly 0. -/
theorem trainStep_zeroState (t : ℕ) :
    trainStep ⟨zeroParams, zeroParams, zeroParams, t⟩ (0 : Mat 1 784) =
      (⟨zeroParams, zeroParams, zeroParams, t + 1⟩, 0) := by
  rw [trainStep,
    show (⟨zeroParams, zeroParams, zeroParams, t⟩ : TrainState).params =
      zeroParams from rfl,
    backward_zeroParams, adamStep_zeroState, forward_zeroParams, mseLoss_zero]

/-- C9: training on the dataset of one all-zero sample with all parameter
tensors initialized to zero keeps the loss exactly 0 after every step, for
any number of steps — the zero input reconstructs to the zero output through
the relu layers, every gradient is zero, and the Adam step leaves the zero
parameters (and zero moments) unchanged. -/
theorem C9_zero_dataset_loss_stays_zero (k : ℕ) :
    trainRunZero k = ⟨zeroParams, zeroParams, zeroParams, k⟩
    ∧ (trainStep (trainRunZero k) (0 : Mat 1 784)).2 = 0 := by
  induction k with
  | zero =>
    refine ⟨rfl, ?_⟩
    rw [show trainRunZero 0 = ⟨zeroParams, zeroParams, zeroParams, 0⟩ from rfl,
      trainStep_zeroState]
  | succ k ih =>
    have h1 : trainRunZero (k + 1) = ⟨zeroParams, zeroParams, zeroParams, k + 1⟩ := by
      rw [show trainRunZero (k + 1) =
        (trainStep (trainRunZero k) (0 : Mat 1 784)).1 from rfl,
        ih.1, trainStep_zeroState]
    exact ⟨h1, by rw [h1, trainStep_zeroState]⟩

end AutoencoderNB
